import Mathlib

/-!
Verification development for the SqlRustler database access layer.

The repository source (src/sqlrustler/sqlrustler.py) is an interface stub:
type declarations for DatabaseType, DatabaseConfig and DatabaseTransaction and
a session lookup function, with every method body elided.  Two layers are
embedded here:

1. The Python-declaration layer: the class bodies exactly as written, together
   with the relevant fragment of Python semantics (Enum member creation from
   assigned names, the dataclass rejection of mutable defaults), to settle
   claims about what the stub itself does at import time.

2. The specified behavioural layer: the spec (spec.md) describes the minimal
   core an implementation of this interface must have (connection pool,
   session registry, transaction state machine, streaming and batched
   writes).  Since none of that code exists under src/, those components are
   modelled from the spec, and each such definition is marked
   `Modelled from the spec:` in its doc comment.
-/

/-! ## Python declaration layer -/

/-- A binding in a Python class body: either a name carrying only a type
annotation (no value), or a name assigned a value. -/
inductive ClassStmt where
  | annOnly (name : String)
  | assigned (name : String)
deriving DecidableEq, Repr

/-- The name bound by a class-body statement. -/
def ClassStmt.name : ClassStmt → String
  | .annOnly n => n
  | .assigned n => n

/-- Python Enum member creation: only names bound to a VALUE in the class body
become enum members; annotation-only names merely populate the annotations
mapping and create no member. -/
def enumMembers (body : List ClassStmt) : List String :=
  (body.filter (fun s => match s with | .assigned _ => true | .annOnly _ => false)).map
    ClassStmt.name

/-- The body of the source class DatabaseType(Enum): three annotation-only
names, no assignments (src/sqlrustler/sqlrustler.py lines 6-9). -/
def databaseTypeBody : List ClassStmt :=
  [.annOnly ("Postgres"), .annOnly ("MySQL"), .annOnly ("SQLite")]

/-- How the Python dataclass machinery classifies a field default: absent,
a hashable (immutable) value, or an unhashable mutable value such as a
dict, list or set literal. -/
inductive DefaultKind where
  | noDefault
  | hashableDefault
  | mutableDefault
deriving DecidableEq, Repr

/-- A dataclass field declaration: the field name and its default kind. -/
structure FieldDecl where
  name : String
  default : DefaultKind
deriving DecidableEq, Repr

/-- Python dataclass processing of a class body at class-definition time: a
field whose default is a mutable value (its class defines no hash) makes the
decorator raise ValueError, so the class is never created. -/
def dataclassProcess (fields : List FieldDecl) : Except String (List FieldDecl) :=
  match fields.find? (fun f => decide (f.default = DefaultKind.mutableDefault)) with
  | some f => .error ("mutable default for field " ++ f.name ++ " is not allowed")
  | none => .ok fields

/-- The fields of the source dataclass DatabaseConfig
(src/sqlrustler/sqlrustler.py lines 12-20): options is declared with the
mutable default value. -/
def databaseConfigFields : List FieldDecl :=
  [⟨"driver", .noDefault⟩, ⟨"url", .noDefault⟩,
   ⟨"max_connections", .hashableDefault⟩, ⟨"min_connections", .hashableDefault⟩,
   ⟨"idle_timeout", .hashableDefault⟩, ⟨"options", .mutableDefault⟩]

/-- A top-level statement of the Python module, as far as import-time
execution is concerned. -/
inductive TopStmt where
  | importFrom
  | enumClass (body : List ClassStmt)
  | dataclassClass (name : String) (fields : List FieldDecl)
  | defStmt (name : String)
deriving Repr

/-- Import-time effect of one top-level statement: only a dataclass
definition can fail (via dataclassProcess). -/
def execTop : TopStmt → Except String Unit
  | .dataclassClass _ fields => (dataclassProcess fields).map (fun _ => ())
  | _ => .ok ()

/-- Importing the module executes its top-level statements in order; the
first failure aborts the import. -/
def importModule (stmts : List TopStmt) : Except String Unit :=
  match stmts with
  | [] => .ok ()
  | s :: rest =>
    match execTop s with
    | .ok _ => importModule rest
    | .error e => .error e

/-- The top-level statements of src/sqlrustler/sqlrustler.py in source
order. -/
def sqlrustlerModule : List TopStmt :=
  [.importFrom, .importFrom, .importFrom,
   .enumClass databaseTypeBody,
   .dataclassClass ("DatabaseConfig") databaseConfigFields,
   .dataclassClass ("DatabaseTransaction") [],
   .defStmt ("get_session_database")]

/-! ## Spec-modelled behavioural layer: data model -/

/-- Modelled from the spec: an opaque parameter/column scalar value. -/
abbrev Scalar := Int

/-- Modelled from the spec: a result row, a column-name-to-value mapping. -/
abbrev Row := List (String × Scalar)

/-- Modelled from the spec: the closed driver-kind set (Postgres, MySQL,
SQLite) that the source enum was meant to provide. -/
inductive DriverKind where
  | postgres
  | mysql
  | sqlite
deriving DecidableEq, Repr

/-- Modelled from the spec (and the field list of the source dataclass):
the connection configuration consumed once at pool construction. -/
structure DatabaseConfig where
  driver : DriverKind
  url : String
  max_connections : Nat
  min_connections : Nat
  idle_timeout : Int
  options : List (String × Scalar)
deriving DecidableEq, Repr

/-- A DatabaseConfig with the source's declared field defaults
(max_connections = 10, min_connections = 1, idle_timeout = 30,
options = empty). -/
def defaultDatabaseConfig (d : DriverKind) (u : String) : DatabaseConfig :=
  ⟨d, u, 10, 1, 30, []⟩

/-- Modelled from the spec: the constraints a config must satisfy,
validated at pool-construction time: max_connections >= min_connections >= 1
and idle_timeout >= 0. -/
def validConfig (c : DatabaseConfig) : Bool :=
  decide (1 ≤ c.min_connections) && decide (c.min_connections ≤ c.max_connections) &&
    decide (0 ≤ c.idle_timeout)

/-- Modelled from the spec: pool-level error taxonomy. -/
inductive PoolError where
  | poolInitError
  | poolExhausted
  | poolClosed
  | invalidConfig
deriving DecidableEq, Repr

/-- Modelled from the spec: transaction-level error taxonomy, reduced to the
constructors the claims distinguish. -/
inductive TxError where
  | transactionClosed
  | queryError
  | commitError
deriving DecidableEq, Repr

/-- Modelled from the spec: bulk-write result is an explicit tagged value,
either a counted total or an explicit unavailable signal. -/
inductive BulkResult where
  | counted (n : Nat)
  | unavailable
deriving DecidableEq, Repr

/-! ## Spec-modelled behavioural layer: chunking -/

/-- Modelled from the spec: split a list into consecutive chunks of size k
(last chunk possibly shorter).  A chunk size of 0 yields no chunks; all
theorems about streaming and batching assume k >= 1. -/
def chunksOf (k : Nat) (l : List α) : List (List α) :=
  if _hk : k = 0 then []
  else
    match l with
    | [] => []
    | a :: rest => ((a :: rest).take k) :: chunksOf k ((a :: rest).drop k)
termination_by l.length
decreasing_by
  simp only [List.length_drop, List.length_cons]
  omega

/-! ## Spec-modelled behavioural layer: driver abstraction and transactions -/

/-- Modelled from the spec: the external per-engine driver abstraction, as
an oracle describing how the engine answers each statement: whether a write
statement succeeds, its affected-row count, whether a failure is
connection-fatal, the result set of a row-returning query, whether commit
succeeds, and whether the driver can report counts for batched writes. -/
structure Driver where
  execOk : String → List Scalar → Bool
  execCount : String → List Scalar → Nat
  fatal : String → List Scalar → Bool
  queryRows : String → List Scalar → List Row
  commitOk : Bool
  canReportCounts : Bool

/-- Modelled from the spec: transaction states; Active is the only
non-terminal state. -/
inductive TxStatus where
  | active
  | committed
  | rolledBack
  | failed
deriving DecidableEq, Repr

/-- Whether a transaction state is terminal (Committed, RolledBack, Failed). -/
def TxStatus.isTerminal : TxStatus → Bool
  | .active => false
  | .committed => true
  | .rolledBack => true
  | .failed => true

/-- Modelled from the spec: the observable state of the leased connection, as
the list of parameter rows applied (pending, uncommitted) since transaction
start. -/
structure ConnState where
  pending : List (List Scalar)
deriving DecidableEq, Repr

/-- Modelled from the spec: a transaction wrapping one leased connection,
with its state-machine status. -/
structure DatabaseTransaction where
  status : TxStatus
  conn : ConnState
deriving DecidableEq, Repr

/-- Modelled from the spec: execute a non-row-returning statement.  On a
terminal transaction it fails with TransactionClosed and changes nothing; on
success it applies the parameter row to the connection state and returns the
affected-row count; on driver error it fails with QueryError and transitions
to Failed only when the error is connection-fatal. -/
def DatabaseTransaction.execute (t : DatabaseTransaction) (d : Driver)
    (query : String) (params : List Scalar) :
    (Except TxError Nat) × DatabaseTransaction :=
  if t.status.isTerminal then (.error .transactionClosed, t)
  else if d.execOk query params then
    (.ok (d.execCount query params), ⟨t.status, ⟨t.conn.pending ++ [params]⟩⟩)
  else if d.fatal query params then (.error .queryError, ⟨.failed, t.conn⟩)
  else (.error .queryError, t)

/-- Modelled from the spec: execute a row-returning query and materialize all
rows.  Fails with TransactionClosed on a terminal transaction. -/
def DatabaseTransaction.fetch_all (t : DatabaseTransaction) (d : Driver)
    (query : String) (params : List Scalar) :
    (Except TxError (List Row)) × DatabaseTransaction :=
  if t.status.isTerminal then (.error .transactionClosed, t)
  else (.ok (d.queryRows query params), t)

/-- Modelled from the spec: streaming fetch, producing the result set of the
query as a sequence of row chunks of size at most chunk_size.  Fails with
TransactionClosed on a terminal transaction. -/
def DatabaseTransaction.stream_data (t : DatabaseTransaction) (d : Driver)
    (query : String) (params : List Scalar) (chunk_size : Nat) :
    (Except TxError (List (List Row))) × DatabaseTransaction :=
  if t.status.isTerminal then (.error .transactionClosed, t)
  else (.ok (chunksOf chunk_size (d.queryRows query params)), t)

/-- Modelled from the spec: whether a whole batch of parameter rows succeeds
against the driver (a batch is applied atomically in this model: a failing
row prevents its own batch from being applied). -/
def batchOk (d : Driver) (query : String) (batch : List (List Scalar)) : Bool :=
  batch.all (fun row => d.execOk query row)

/-- Total affected-row count the driver reports for a list of parameter
rows. -/
def rowsCount (d : Driver) (query : String) (rows : List (List Scalar)) : Nat :=
  (rows.map (fun row => d.execCount query row)).sum

/-- Modelled from the spec: apply batches in input order to the connection
pending state, accumulating the affected-row count; on the first failing
batch, stop with QueryError, keeping the batches already applied (they are
NOT rolled back by this call). -/
def applyBatches (d : Driver) (query : String) :
    List (List (List Scalar)) → List (List Scalar) → Nat →
    (Except TxError Nat) × List (List Scalar)
  | [], pending, acc => (.ok acc, pending)
  | batch :: rest, pending, acc =>
    if batchOk d query batch then
      applyBatches d query rest (pending ++ batch) (acc + rowsCount d query batch)
    else
      (.error .queryError, pending)

/-- Modelled from the spec: batched bulk write.  Fails with TransactionClosed
on a terminal transaction; otherwise partitions the rows into batches of size
at most batch_size, applies them in input order, and on success returns the
counted total when the driver can report counts for batched writes and the
explicit Unavailable signal otherwise. -/
def DatabaseTransaction.bulk_change (t : DatabaseTransaction) (d : Driver)
    (query : String) (params : List (List Scalar)) (batch_size : Nat) :
    (Except TxError BulkResult) × DatabaseTransaction :=
  if t.status.isTerminal then (.error .transactionClosed, t)
  else
    match applyBatches d query (chunksOf batch_size params) t.conn.pending 0 with
    | (.ok total, pending) =>
      (.ok (if d.canReportCounts then .counted total else .unavailable),
       ⟨t.status, ⟨pending⟩⟩)
    | (.error e, pending) => (.error e, ⟨t.status, ⟨pending⟩⟩)

/-- Modelled from the spec: commit finalizes the transaction and transitions
to Committed; on driver-level commit failure it fails with CommitError and
the state is classified Failed.  Fails with TransactionClosed on a terminal
transaction. -/
def DatabaseTransaction.commit (t : DatabaseTransaction) (d : Driver) :
    (Except TxError Unit) × DatabaseTransaction :=
  if t.status.isTerminal then (.error .transactionClosed, t)
  else if d.commitOk then (.ok (), ⟨.committed, t.conn⟩)
  else (.error .commitError, ⟨.failed, t.conn⟩)

/-- Modelled from the spec: rollback discards all changes since transaction
start and transitions to RolledBack.  Fails with TransactionClosed on a
terminal transaction. -/
def DatabaseTransaction.rollback (t : DatabaseTransaction) :
    (Except TxError Unit) × DatabaseTransaction :=
  if t.status.isTerminal then (.error .transactionClosed, t)
  else (.ok (), ⟨.rolledBack, ⟨[]⟩⟩)

/-! ## Spec-modelled behavioural layer: session registry -/

/-- Modelled from the spec: the identity of a live transaction instance:
its own identity and the identity of the connection handle it leases. -/
structure TxInstance where
  txId : Nat
  handleId : Nat
deriving DecidableEq, Repr

/-- Modelled from the spec: the process-wide session registry mapping a
session/context identifier to its live transaction, together with the fresh
transaction and handle counters (handles are leased from the pool, each
lease producing a fresh handle identity). -/
structure SessionRegistry where
  entries : List (String × TxInstance)
  nextTx : Nat
  nextHandle : Nat
deriving DecidableEq, Repr

/-- Look a session id up in the registry entry list. -/
def lookupSession (s : String) : List (String × TxInstance) → Option TxInstance
  | [] => none
  | (k, t) :: rest => if k = s then some t else lookupSession s rest

/-- Modelled from the spec: get_session_database delegates to the registry's
get_or_create: return the registered live transaction for the id when one
exists, otherwise lease a fresh handle, wrap it in a fresh transaction,
register and return it. -/
def get_session_database (r : SessionRegistry) (context_id : String) :
    TxInstance × SessionRegistry :=
  match lookupSession context_id r.entries with
  | some t => (t, r)
  | none =>
    let t : TxInstance := ⟨r.nextTx, r.nextHandle⟩
    (t, ⟨(context_id, t) :: r.entries, r.nextTx + 1, r.nextHandle + 1⟩)

/-- Well-formedness of a registry state: session ids are registered at most
once, distinct entries lease distinct handles, and every registered handle
identity is below the fresh-handle counter. -/
def RegistryWF (r : SessionRegistry) : Prop :=
  (r.entries.map Prod.fst).Nodup ∧
  (r.entries.map (fun e => e.2.handleId)).Nodup ∧
  ∀ e ∈ r.entries, e.2.handleId < r.nextHandle

/-! ## Spec-modelled behavioural layer: connection pool -/

/-- Modelled from the spec: the connection pool: its (immutable) config, the
idle handle set (head = most recently used), the leased handle set, the
fresh-handle counter, and whether a shutdown is in progress. -/
structure ConnectionPool where
  config : DatabaseConfig
  idle : List Nat
  leased : List Nat
  nextHandle : Nat
  shuttingDown : Bool
deriving DecidableEq, Repr

/-- Modelled from the spec: open n handles eagerly, one at a time; opening
fails with PoolInitError as soon as the engine is unreachable for one of
them, so no partially opened set is ever returned (all-or-nothing). -/
def openHandles (reachable : Nat → Bool) : Nat → Nat → Except PoolError (List Nat)
  | _, 0 => .ok []
  | start, n + 1 =>
    if reachable start then
      match openHandles reachable (start + 1) n with
      | .ok hs => .ok (start :: hs)
      | .error e => .error e
    else
      .error .poolInitError

/-- Modelled from the spec: pool construction: validate the config, then open
exactly min_connections handles eagerly; on success the pool starts with
those handles idle, none leased, and not shutting down. -/
def initPool (reachable : Nat → Bool) (cfg : DatabaseConfig) :
    Except PoolError ConnectionPool :=
  if validConfig cfg then
    match openHandles reachable 0 cfg.min_connections with
    | .ok hs => .ok ⟨cfg, hs, [], cfg.min_connections, false⟩
    | .error e => .error e
  else
    .error .invalidConfig

/-- Modelled from the spec: acquire a leased handle: fail with PoolClosed
while shutting down; reuse the most recently used idle handle when one
exists; otherwise open a new handle while the live count is below
max_connections; otherwise fail with PoolExhausted. -/
def acquire (p : ConnectionPool) : (Except PoolError Nat) × ConnectionPool :=
  if p.shuttingDown then (.error .poolClosed, p)
  else
    match p.idle with
    | h :: rest => (.ok h, ⟨p.config, rest, h :: p.leased, p.nextHandle, p.shuttingDown⟩)
    | [] =>
      if p.leased.length < p.config.max_connections then
        (.ok p.nextHandle,
         ⟨p.config, [], p.nextHandle :: p.leased, p.nextHandle + 1, p.shuttingDown⟩)
      else
        (.error .poolExhausted, p)

/-- Modelled from the spec: release a leased handle: a healthy handle returns
to the idle set; an unhealthy one is closed and, when the live count would
drop below min_connections, a replacement is opened.  Releasing a handle the
pool has not leased is a no-op. -/
def release (p : ConnectionPool) (h : Nat) (healthy : Bool) : ConnectionPool :=
  if h ∈ p.leased then
    let leased := p.leased.erase h
    if healthy then ⟨p.config, h :: p.idle, leased, p.nextHandle, p.shuttingDown⟩
    else if leased.length + p.idle.length < p.config.min_connections then
      ⟨p.config, p.nextHandle :: p.idle, leased, p.nextHandle + 1, p.shuttingDown⟩
    else
      ⟨p.config, p.idle, leased, p.nextHandle, p.shuttingDown⟩
  else p

/-- One pool operation of an acquire/release sequence. -/
inductive PoolOp where
  | acquireOp
  | releaseOp (h : Nat) (healthy : Bool)
deriving DecidableEq, Repr

/-- Apply one pool operation to the pool state. -/
def applyOp (p : ConnectionPool) : PoolOp → ConnectionPool
  | .acquireOp => (acquire p).2
  | .releaseOp h hb => release p h hb

/-- Apply a sequence of pool operations in order. -/
def applyOps (p : ConnectionPool) (ops : List PoolOp) : ConnectionPool :=
  ops.foldl applyOp p

/-- The pool-state invariant the amended pool claim asserts: live handles
(leased plus idle) never exceed max_connections, never drop below
min_connections unless a shutdown is in progress, the idle and leased sets
share no handle and hold no duplicates (each handle is leased to at most one
transaction), and every handle identity is below the fresh-handle counter. -/
def PoolInv (p : ConnectionPool) : Prop :=
  p.leased.length + p.idle.length ≤ p.config.max_connections ∧
  (p.shuttingDown = false → p.config.min_connections ≤ p.leased.length + p.idle.length) ∧
  (p.idle ++ p.leased).Nodup ∧
  ∀ h ∈ p.idle ++ p.leased, h < p.nextHandle

/-! ## Concrete example values used by witnesses -/

/-- A concrete driver: every statement succeeds and reports one affected row,
queries return three one-column rows, commit succeeds, batched-write counts
are reportable. -/
def driverEx : Driver :=
  ⟨fun _ _ => true, fun _ _ => 1, fun _ _ => false,
   fun _ _ => [[("id", 1)], [("id", 2)], [("id", 3)]], true, true⟩

/-- A concrete driver that cannot report counts for batched writes. -/
def driverNoCounts : Driver :=
  ⟨fun _ _ => true, fun _ _ => 1, fun _ _ => false, fun _ _ => [], true, false⟩

/-- A concrete driver whose write statements fail exactly on the parameter
row [3] (non-fatally). -/
def driverFailsRow3 : Driver :=
  ⟨fun _ r => decide (r ≠ [(3 : Scalar)]), fun _ _ => 1, fun _ _ => false,
   fun _ _ => [], true, true⟩

/-- A fresh active transaction on an empty connection state. -/
def txActive : DatabaseTransaction := ⟨.active, ⟨[]⟩⟩

/-- A committed (hence terminal) transaction with one applied row recorded. -/
def txCommitted : DatabaseTransaction := ⟨.committed, ⟨[[7]]⟩⟩

/-- The spec example config: sqlite, in-memory url, max_connections 5,
min_connections 2, idle_timeout 30. -/
def cfgEx : DatabaseConfig := ⟨.sqlite, ":memory:", 5, 2, 30, []⟩

/-- A small config (max_connections 2, min_connections 1) for the pool
counterexample. -/
def cfgSmall : DatabaseConfig := ⟨.sqlite, ":memory:", 2, 1, 30, []⟩

/-- The pool state produced by constructing a pool from cfgSmall with every
handle reachable: one idle handle, none leased. -/
def poolSmall : ConnectionPool := ⟨cfgSmall, [0], [], 1, false⟩

/-- The empty session registry. -/
def emptyRegistry : SessionRegistry := ⟨[], 0, 0⟩

/-! ## Lemmas about chunking -/

theorem chunksOf_nil (k : Nat) : chunksOf k ([] : List α) = [] := by
  unfold chunksOf
  split <;> rfl

theorem chunksOf_cons (k : Nat) (hk : k ≠ 0) (a : α) (rest : List α) :
    chunksOf k (a :: rest) = ((a :: rest).take k) :: chunksOf k ((a :: rest).drop k) := by
  conv_lhs => unfold chunksOf
  simp [hk]

theorem chunksOf_ne_nil (k : Nat) (hk : k ≠ 0) (l : List α) (hl : l ≠ []) :
    chunksOf k l = (l.take k) :: chunksOf k (l.drop k) := by
  cases l with
  | nil => exact absurd rfl hl
  | cons a rest => exact chunksOf_cons k hk a rest

theorem join_chunksOf_fuel (k : Nat) (hk : k ≠ 0) :
    ∀ (n : Nat) (l : List α), l.length ≤ n → (chunksOf k l).flatten = l := by
  intro n
  induction n with
  | zero =>
    intro l hl
    have : l = [] := List.length_eq_zero.mp (Nat.le_zero.mp hl)
    subst this
    simp [chunksOf_nil]
  | succ n ih =>
    intro l hl
    cases l with
    | nil => simp [chunksOf_nil]
    | cons a rest =>
      rw [chunksOf_cons k hk a rest, List.flatten_cons, ih _ ?_, List.take_append_drop]
      simp only [List.length_drop, List.length_cons] at hl ⊢
      omega

theorem join_chunksOf (k : Nat) (hk : k ≠ 0) (l : List α) : (chunksOf k l).flatten = l :=
  join_chunksOf_fuel k hk l.length l le_rfl

theorem ceil_div_step (k m : Nat) (hk : k ≠ 0) (hm : 1 ≤ m) :
    (m + k - 1) / k = ((m - k) + k - 1) / k + 1 := by
  rcases le_or_lt m k with hle | hlt
  · have h1 : m - k = 0 := by omega
    rw [h1]
    have h2 : (0 + k - 1) / k = 0 := Nat.div_eq_of_lt (by omega)
    rw [h2]
    exact Nat.div_eq_of_lt_le (by omega) (by omega)
  · have h1 : m + k - 1 = ((m - k) + k - 1) + k := by omega
    rw [h1, Nat.add_div_right _ (Nat.pos_of_ne_zero hk)]

theorem length_chunksOf_fuel (k : Nat) (hk : k ≠ 0) :
    ∀ (n : Nat) (l : List α), l.length ≤ n →
      (chunksOf k l).length = (l.length + k - 1) / k := by
  intro n
  induction n with
  | zero =>
    intro l hl
    have : l = [] := List.length_eq_zero.mp (Nat.le_zero.mp hl)
    subst this
    have h0 : (k - 1) / k = 0 := Nat.div_eq_of_lt (by omega)
    simp [chunksOf_nil, h0]
  | succ n ih =>
    intro l hl
    cases l with
    | nil =>
      have h0 : (k - 1) / k = 0 := Nat.div_eq_of_lt (by omega)
      simp [chunksOf_nil, h0]
    | cons a rest =>
      rw [chunksOf_cons k hk a rest]
      simp only [List.length_cons]
      rw [ih _ ?_]
      · simp only [List.length_drop, List.length_cons]
        rw [ceil_div_step k (rest.length + 1) hk (by omega)]
      · simp only [List.length_drop, List.length_cons] at hl ⊢
        omega

theorem length_chunksOf (k : Nat) (hk : k ≠ 0) (l : List α) :
    (chunksOf k l).length = (l.length + k - 1) / k :=
  length_chunksOf_fuel k hk l.length l le_rfl

theorem chunksOf_mem_size_fuel (k : Nat) (hk : k ≠ 0) :
    ∀ (n : Nat) (l : List α), l.length ≤ n →
      ∀ c ∈ chunksOf k l, c.length ≤ k ∧ 0 < c.length := by
  intro n
  induction n with
  | zero =>
    intro l hl
    have : l = [] := List.length_eq_zero.mp (Nat.le_zero.mp hl)
    subst this
    simp [chunksOf_nil]
  | succ n ih =>
    intro l hl
    cases l with
    | nil => simp [chunksOf_nil]
    | cons a rest =>
      rw [chunksOf_cons k hk a rest]
      intro c hc
      rcases List.mem_cons.mp hc with hhd | htl
      · subst hhd
        simp only [List.length_take, List.length_cons]
        omega
      · refine ih _ ?_ c htl
        simp only [List.length_drop, List.length_cons] at hl ⊢
        omega

theorem chunksOf_mem_size (k : Nat) (hk : k ≠ 0) (l : List α) :
    ∀ c ∈ chunksOf k l, c.length ≤ k ∧ 0 < c.length :=
  chunksOf_mem_size_fuel k hk l.length l le_rfl

theorem chunksOf_nonlast_size_fuel (k : Nat) (hk : k ≠ 0) :
    ∀ (n : Nat) (l : List α), l.length ≤ n →
      ∀ i, i + 1 < (chunksOf k l).length → ((chunksOf k l).getD i []).length = k := by
  intro n
  induction n with
  | zero =>
    intro l hl
    have : l = [] := List.length_eq_zero.mp (Nat.le_zero.mp hl)
    subst this
    simp [chunksOf_nil]
  | succ n ih =>
    intro l hl
    cases l with
    | nil => simp [chunksOf_nil]
    | cons a rest =>
      rw [chunksOf_cons k hk a rest]
      intro i hi
      cases i with
      | zero =>
        simp only [List.getD_cons_zero, List.length_take, List.length_cons]
        simp only [List.length_cons] at hi
        have hdrop : (a :: rest).drop k ≠ [] := by
          intro hnil
          rw [hnil, chunksOf_nil] at hi
          simp at hi
        have : k < rest.length + 1 := by
          by_contra hcon
          exact hdrop (List.drop_eq_nil_of_le (by simp; omega))
        omega
      | succ i =>
        simp only [List.getD_cons_succ]
        refine ih _ ?_ i ?_
        · simp only [List.length_drop, List.length_cons] at hl ⊢
          omega
        · simp only [List.length_cons] at hi
          omega

theorem chunksOf_nonlast_size (k : Nat) (hk : k ≠ 0) (l : List α) :
    ∀ i, i + 1 < (chunksOf k l).length → ((chunksOf k l).getD i []).length = k :=
  chunksOf_nonlast_size_fuel k hk l.length l le_rfl

/-! ## Lemmas about batched writes -/

theorem rowsCount_append (d : Driver) (q : String) (xs ys : List (List Scalar)) :
    rowsCount d q (xs ++ ys) = rowsCount d q xs + rowsCount d q ys := by
  simp [rowsCount]

theorem applyBatches_all_ok (d : Driver) (q : String) :
    ∀ (bs : List (List (List Scalar))) (pending : List (List Scalar)) (acc : Nat),
      (∀ b ∈ bs, batchOk d q b = true) →
      applyBatches d q bs pending acc =
        (.ok (acc + rowsCount d q bs.flatten), pending ++ bs.flatten) := by
  intro bs
  induction bs with
  | nil =>
    intro pending acc _
    simp [applyBatches, rowsCount]
  | cons b rest ih =>
    intro pending acc hall
    have hb : batchOk d q b = true := hall b (List.mem_cons_self b rest)
    simp only [applyBatches, hb, if_pos]
    rw [ih _ _ (fun c hc => hall c (List.mem_cons_of_mem b hc))]
    simp [List.flatten_cons, rowsCount_append, List.append_assoc]
    omega

theorem applyBatches_fail (d : Driver) (q : String) :
    ∀ (bs : List (List (List Scalar))) (K : Nat) (pending : List (List Scalar)) (acc : Nat),
      K < bs.length →
      (∀ j, j < K → batchOk d q (bs.getD j []) = true) →
      batchOk d q (bs.getD K []) = false →
      applyBatches d q bs pending acc =
        (.error .queryError, pending ++ (bs.take K).flatten) := by
  intro bs
  induction bs with
  | nil =>
    intro K pending acc hK _ _
    simp at hK
  | cons b rest ih =>
    intro K pending acc hK hpre hfail
    cases K with
    | zero =>
      simp only [List.getD_cons_zero] at hfail
      simp [applyBatches, hfail]
    | succ K =>
      have hb : batchOk d q b = true := by
        have := hpre 0 (Nat.succ_pos K)
        simpa using this
      simp only [applyBatches, hb, if_pos]
      rw [ih K _ _ (by simpa using hK)
        (fun j hj => by simpa using hpre (j + 1) (by omega))
        (by simpa using hfail)]
      simp [List.take_succ_cons, List.flatten_cons, List.append_assoc]

/-! ## Lemmas about the session registry -/

theorem lookupSession_mem (s : String) :
    ∀ (es : List (String × TxInstance)) (t : TxInstance),
      lookupSession s es = some t → (s, t) ∈ es := by
  intro es
  induction es with
  | nil => intro t h; simp [lookupSession] at h
  | cons e rest ih =>
    intro t h
    obtain ⟨k, t0⟩ := e
    simp only [lookupSession] at h
    by_cases hk : k = s
    · rw [if_pos hk] at h
      subst hk
      injection h with h
      subst h
      exact List.mem_cons_self _ _
    · rw [if_neg hk] at h
      exact List.mem_cons_of_mem _ (ih t h)

theorem lookupSession_none_not_mem (s : String) :
    ∀ (es : List (String × TxInstance)),
      lookupSession s es = none → s ∉ es.map Prod.fst := by
  intro es
  induction es with
  | nil => intro _ h; simp at h
  | cons e rest ih =>
    intro h hmem
    obtain ⟨k, t0⟩ := e
    simp only [lookupSession] at h
    by_cases hk : k = s
    · rw [if_pos hk] at h
      exact Option.noConfusion h
    · rw [if_neg hk] at h
      simp only [List.map_cons, List.mem_cons] at hmem
      rcases hmem with hmem | hmem
      · exact hk hmem.symm
      · exact ih h hmem

theorem get_session_database_lookup (r : SessionRegistry) (s : String) :
    lookupSession s (get_session_database r s).2.entries =
      some (get_session_database r s).1 := by
  unfold get_session_database
  cases hc : lookupSession s r.entries with
  | some t => simpa using hc
  | none => simp [lookupSession]

theorem get_session_database_wf (r : SessionRegistry) (s : String) (hwf : RegistryWF r) :
    RegistryWF (get_session_database r s).2 := by
  obtain ⟨hkeys, hhandles, hbound⟩ := hwf
  unfold get_session_database
  cases hc : lookupSession s r.entries with
  | some t => exact ⟨hkeys, hhandles, hbound⟩
  | none =>
    refine ⟨?_, ?_, ?_⟩
    · simp only [List.map_cons, List.nodup_cons]
      exact ⟨lookupSession_none_not_mem s r.entries hc, hkeys⟩
    · simp only [List.map_cons, List.nodup_cons]
      refine ⟨?_, hhandles⟩
      intro hmem
      obtain ⟨e, hemem, heq⟩ := List.mem_map.mp hmem
      exact absurd heq (Nat.ne_of_lt (hbound e hemem))
    · intro e hemem
      rcases List.mem_cons.mp hemem with hhd | htl
      · subst hhd
        simp
      · exact Nat.lt_trans (hbound e htl) (Nat.lt_succ_self _)

theorem registry_distinct_handles (r : SessionRegistry) (s1 s2 : String)
    (t1 t2 : TxInstance) (hwf : RegistryWF r) (hne : s1 ≠ s2)
    (h1 : lookupSession s1 r.entries = some t1)
    (h2 : lookupSession s2 r.entries = some t2) :
    t1.handleId ≠ t2.handleId := by
  obtain ⟨_, hhandles, _⟩ := hwf
  intro heq
  have hm1 : (s1, t1) ∈ r.entries := lookupSession_mem s1 r.entries t1 h1
  have hm2 : (s2, t2) ∈ r.entries := lookupSession_mem s2 r.entries t2 h2
  have := List.inj_on_of_nodup_map hhandles hm1 hm2 heq
  exact hne (congrArg Prod.fst this)

/-! ## Lemmas about the connection pool -/

theorem openHandles_ok (reachable : Nat → Bool) :
    ∀ (n start : Nat), (∀ i, i < n → reachable (start + i) = true) →
      openHandles reachable start n = .ok (List.range' start n) := by
  intro n
  induction n with
  | zero => intro start _; simp [openHandles]
  | succ n ih =>
    intro start hall
    have h0 : reachable start = true := by simpa using hall 0 (Nat.succ_pos n)
    have hrest : openHandles reachable (start + 1) n = .ok (List.range' (start + 1) n) := by
      refine ih (start + 1) ?_
      intro i hi
      have := hall (i + 1) (by omega)
      rwa [show start + (i + 1) = start + 1 + i by omega] at this
    simp [openHandles, h0, hrest, List.range'_succ]

theorem openHandles_fail (reachable : Nat → Bool) :
    ∀ (n start : Nat), (∃ i, i < n ∧ reachable (start + i) = false) →
      openHandles reachable start n = .error .poolInitError := by
  intro n
  induction n with
  | zero => intro start h; obtain ⟨i, hi, _⟩ := h; omega
  | succ n ih =>
    intro start h
    obtain ⟨i, hi, hf⟩ := h
    by_cases h0 : reachable start = true
    · have hine : i ≠ 0 := by
        intro h0'
        subst h0'
        simp at hf
        rw [hf] at h0
        exact Bool.noConfusion h0
      obtain ⟨j, rfl⟩ := Nat.exists_eq_succ_of_ne_zero hine
      have hrest : openHandles reachable (start + 1) n = .error .poolInitError := by
        refine ih (start + 1) ⟨j, by omega, ?_⟩
        rwa [show start + 1 + j = start + (j + 1) by omega]
      simp [openHandles, h0, hrest]
    · simp only [Bool.not_eq_true] at h0
      simp [openHandles, h0]

theorem validConfig_spec (c : DatabaseConfig) (hv : validConfig c = true) :
    1 ≤ c.min_connections ∧ c.min_connections ≤ c.max_connections ∧
      0 ≤ c.idle_timeout := by
  simp only [validConfig, Bool.and_eq_true, decide_eq_true_eq] at hv
  exact ⟨hv.1.1, hv.1.2, hv.2⟩

theorem openHandles_ok_range (reachable : Nat → Bool) :
    ∀ (n start : Nat) (hs : List Nat),
      openHandles reachable start n = .ok hs → hs = List.range' start n := by
  intro n
  induction n with
  | zero =>
    intro start hs h
    simp only [openHandles] at h
    injection h with h
    simp [h.symm]
  | succ n ih =>
    intro start hs h
    simp only [openHandles] at h
    by_cases h0 : reachable start = true
    · rw [if_pos h0] at h
      cases hrest : openHandles reachable (start + 1) n with
      | ok tl =>
        rw [hrest] at h
        injection h with h
        rw [ih (start + 1) tl hrest] at h
        rw [h.symm, List.range'_succ]
      | error e =>
        rw [hrest] at h
        exact Except.noConfusion h
    · simp only [Bool.not_eq_true] at h0
      rw [h0] at h
      simp at h
  
theorem initPool_inv (reachable : Nat → Bool) (cfg : DatabaseConfig)
    (p : ConnectionPool) (hok : initPool reachable cfg = .ok p) : PoolInv p := by
  unfold initPool at hok
  by_cases hv : validConfig cfg = true
  · rw [if_pos hv] at hok
    obtain ⟨hmin1, hminmax, _⟩ := validConfig_spec cfg hv
    cases hoh : openHandles reachable 0 cfg.min_connections with
    | ok hs =>
      rw [hoh] at hok
      injection hok with hok
      have hhs : hs = List.range' 0 cfg.min_connections :=
        openHandles_ok_range reachable cfg.min_connections 0 hs hoh
      subst hok
      refine ⟨?_, ?_, ?_, ?_⟩
      · simp [hhs, List.length_range']
        omega
      · intro _
        simp [hhs, List.length_range']
      · simp [hhs]
        exact List.nodup_range' 0 cfg.min_connections
      · intro h hmem
        simp only [List.append_nil, hhs] at hmem
        rw [List.mem_range'_1] at hmem
        simpa using hmem.2
    | error e =>
      rw [hoh] at hok
      exact Except.noConfusion hok
  · rw [if_neg hv] at hok
    exact Except.noConfusion hok

theorem acquire_inv (p : ConnectionPool) (hinv : PoolInv p) : PoolInv (acquire p).2 := by
  obtain ⟨hmax, hmin, hnd, hbound⟩ := hinv
  obtain ⟨cfg, idle, leased, nh, sd⟩ := p
  dsimp only at hmax hmin hnd hbound
  cases sd with
  | true =>
    simp only [acquire, if_pos]
    exact ⟨hmax, hmin, hnd, hbound⟩
  | false =>
    cases idle with
    | cons h rest =>
      simp only [acquire, Bool.false_eq_true, if_false]
      have hperm : (rest ++ h :: leased).Perm (h :: (rest ++ leased)) := List.perm_middle
      refine ⟨?_, ?_, ?_, ?_⟩ <;> dsimp only
      · simp only [List.length_cons] at hmax ⊢
        omega
      · intro _
        have := hmin rfl
        simp only [List.length_cons] at this ⊢
        omega
      · rw [hperm.nodup_iff]
        simpa using hnd
      · intro x hx
        refine hbound x ?_
        have := hperm.mem_iff.mp hx
        simpa using this
    | nil =>
      by_cases hcap : leased.length < cfg.max_connections
      · simp only [acquire, Bool.false_eq_true, if_false, hcap, if_pos]
        refine ⟨?_, ?_, ?_, ?_⟩ <;> dsimp only
        · simp only [List.length_cons, List.length_nil]
          omega
        · intro _
          have := hmin rfl
          simp only [List.length_nil, List.length_cons] at this ⊢
          omega
        · simp only [List.nil_append, List.nodup_cons]
          refine ⟨?_, by simpa using hnd⟩
          intro hmem
          have := hbound nh (by simpa using hmem)
          omega
        · intro x hx
          simp only [List.nil_append, List.mem_cons] at hx
          rcases hx with rfl | hx
          · omega
          · have := hbound x (by simpa using hx)
            omega
      · simp only [acquire, Bool.false_eq_true, if_false, hcap, if_neg, not_false_iff]
        exact ⟨hmax, hmin, hnd, hbound⟩

theorem release_inv (p : ConnectionPool) (h : Nat) (healthy : Bool)
    (hinv : PoolInv p) : PoolInv (release p h healthy) := by
  obtain ⟨hmax, hmin, hnd, hbound⟩ := hinv
  obtain ⟨cfg, idle, leased, nh, sd⟩ := p
  dsimp only at hmax hmin hnd hbound
  by_cases hm : h ∈ leased
  · have hlen : (leased.erase h).length = leased.length - 1 :=
      List.length_erase_of_mem hm
    have hpos : 0 < leased.length := List.length_pos.mpr (List.ne_nil_of_mem hm)
    have hesub : (idle ++ leased.erase h).Sublist (idle ++ leased) :=
      List.Sublist.append_left (List.erase_sublist h leased) idle
    have hend : (idle ++ leased.erase h).Nodup := hnd.sublist hesub
    have hnotidle : h ∉ idle := by
      intro hin
      exact (List.disjoint_of_nodup_append hnd) hin hm
    have hnoterase : h ∉ leased.erase h := (hnd.of_append_right).not_mem_erase
    cases healthy with
    | true =>
      simp only [release, hm, if_pos, if_true]
      refine ⟨?_, ?_, ?_, ?_⟩ <;> dsimp only
      · simp only [List.length_cons]
        omega
      · intro hsd
        have := hmin hsd
        simp only [List.length_cons]
        omega
      · simp only [List.cons_append, List.nodup_cons]
        refine ⟨?_, hend⟩
        intro hmem
        rcases List.mem_append.mp hmem with hin | hin
        · exact hnotidle hin
        · exact hnoterase hin
      · intro x hx
        simp only [List.cons_append, List.mem_cons] at hx
        rcases hx with rfl | hx
        · exact hbound x (List.mem_append.mpr (Or.inr hm))
        · exact hbound x (hesub.subset hx)
    | false =>
      by_cases hlow : (leased.erase h).length + idle.length < cfg.min_connections
      · simp only [release, hm, if_pos, Bool.false_eq_true, if_false, hlow]
        refine ⟨?_, ?_, ?_, ?_⟩ <;> dsimp only
        · simp only [List.length_cons]
          omega
        · intro hsd
          have := hmin hsd
          simp only [List.length_cons]
          omega
        · simp only [List.cons_append, List.nodup_cons]
          refine ⟨?_, hend⟩
          intro hmem
          have := hbound nh (hesub.subset hmem)
          omega
        · intro x hx
          simp only [List.cons_append, List.mem_cons] at hx
          rcases hx with rfl | hx
          · omega
          · have := hbound x (hesub.subset hx)
            omega
      · simp only [release, hm, if_pos, Bool.false_eq_true, if_false, hlow]
        refine ⟨?_, ?_, ?_, ?_⟩ <;> dsimp only
        · omega
        · intro hsd
          have := hmin hsd
          omega
        · exact hend
        · intro x hx
          exact hbound x (hesub.subset hx)
  · simp only [release, hm, if_neg, not_false_iff]
    exact ⟨hmax, hmin, hnd, hbound⟩

theorem applyOp_inv (p : ConnectionPool) (op : PoolOp) (hinv : PoolInv p) :
    PoolInv (applyOp p op) := by
  cases op with
  | acquireOp => exact acquire_inv p hinv
  | releaseOp h hb => exact release_inv p h hb hinv

theorem applyOps_inv (ops : List PoolOp) :
    ∀ (p : ConnectionPool), PoolInv p → PoolInv (applyOps p ops) := by
  induction ops with
  | nil => intro p hinv; exact hinv
  | cons op rest ih =>
    intro p hinv
    exact ih (applyOp p op) (applyOp_inv p op hinv)

theorem applyOp_config (p : ConnectionPool) (op : PoolOp) :
    (applyOp p op).config = p.config := by
  cases op with
  | acquireOp =>
    simp only [applyOp, acquire]
    by_cases hsd : p.shuttingDown = true
    · simp [hsd]
    · simp only [Bool.not_eq_true] at hsd
      simp only [hsd, Bool.false_eq_true, if_false]
      cases p.idle with
      | cons h rest => rfl
      | nil =>
        by_cases hcap : p.leased.length < p.config.max_connections
        · simp [hcap]
        · simp [hcap]
  | releaseOp h hb =>
    simp only [applyOp, release]
    by_cases hm : h ∈ p.leased
    · simp only [hm, if_pos]
      cases hb with
      | true => rfl
      | false =>
        by_cases hlow :
            (p.leased.erase h).length + p.idle.length < p.config.min_connections
        · simp [hlow]
        · simp [hlow]
    · simp [hm]

theorem applyOps_config (ops : List PoolOp) :
    ∀ (p : ConnectionPool), (applyOps p ops).config = p.config := by
  induction ops with
  | nil => intro p; rfl
  | cons op rest ih =>
    intro p
    rw [show applyOps p (op :: rest) = applyOps (applyOp p op) rest from rfl,
      ih (applyOp p op), applyOp_config]

/-! ## Claim theorems -/

/-- C9: The DatabaseType enum, declared with bare type annotations and no
value assignments, defines zero enum members: none of Postgres, MySQL or
SQLite is a constructible member, so no driver value can be drawn from the
intended closed three-element set. -/
theorem databaseType_has_no_members :
    enumMembers databaseTypeBody = [] ∧
    ("Postgres") ∉ enumMembers databaseTypeBody ∧
    ("MySQL") ∉ enumMembers databaseTypeBody ∧
    ("SQLite") ∉ enumMembers databaseTypeBody := by
  refine ⟨rfl, ?_, ?_, ?_⟩ <;> simp [enumMembers, databaseTypeBody]

/-- C10: The DatabaseConfig dataclass declares options with a mutable dict
default, which the Python dataclass machinery rejects with ValueError at
class-definition time, so importing the module fails and no DatabaseConfig
instance is constructible as the source is written. -/
theorem databaseConfig_mutable_default_rejected :
    dataclassProcess databaseConfigFields =
      .error ("mutable default for field options is not allowed") ∧
    importModule sqlrustlerModule =
      .error ("mutable default for field options is not allowed") :=
  ⟨rfl, rfl⟩

/-- C2: On an active transaction and chunk size k >= 1, streaming yields
exactly the chunking of the fetch_all result set: ceil(N/k) chunks, each of
size k except possibly the last (every chunk nonempty and of size at most k,
every non-last chunk of size exactly k), and the in-order concatenation of
the chunks is the fetch_all row list. -/
theorem stream_data_chunks_fetch_all (d : Driver) (t : DatabaseTransaction)
    (q : String) (params : List Scalar) (k : Nat)
    (ht : t.status = .active) (hk : 0 < k) :
    (t.fetch_all d q params).1 = .ok (d.queryRows q params) ∧
    (t.stream_data d q params k).1 = .ok (chunksOf k (d.queryRows q params)) ∧
    (chunksOf k (d.queryRows q params)).flatten = d.queryRows q params ∧
    (chunksOf k (d.queryRows q params)).length =
      ((d.queryRows q params).length + k - 1) / k ∧
    (∀ c ∈ chunksOf k (d.queryRows q params), c.length ≤ k ∧ 0 < c.length) ∧
    (∀ i, i + 1 < (chunksOf k (d.queryRows q params)).length →
      ((chunksOf k (d.queryRows q params)).getD i []).length = k) := by
  have hterm : t.status.isTerminal = false := by rw [ht]; rfl
  have hk0 : k ≠ 0 := Nat.pos_iff_ne_zero.mp hk
  refine ⟨?_, ?_, join_chunksOf k hk0 _, length_chunksOf k hk0 _,
    chunksOf_mem_size k hk0 _, chunksOf_nonlast_size k hk0 _⟩
  · simp [DatabaseTransaction.fetch_all, hterm]
  · simp [DatabaseTransaction.stream_data, hterm]

/-- Witness for C2: on the three-row example driver with chunk size 2,
streaming yields a chunk of two rows followed by a chunk of one row. -/
theorem stream_data_chunks_fetch_all_witness :
    txActive.status = .active ∧ 0 < 2 ∧
    (txActive.stream_data driverEx ("SELECT") [] 2).1 =
      .ok [[[("id", 1)], [("id", 2)]], [[("id", 3)]]] := by
  refine ⟨rfl, by decide, ?_⟩
  have h := stream_data_chunks_fetch_all driverEx txActive ("SELECT") [] 2 rfl
    (by decide)
  rw [h.2.1]
  simp [chunksOf, driverEx]

/-- C3: every operation invoked on a transaction in a terminal state
(Committed, RolledBack or Failed) fails with TransactionClosed and returns
the transaction unchanged: the state and connection are untouched, so no
transition out of a terminal state ever occurs. -/
theorem terminal_ops_fail_no_side_effect (d : Driver) (t : DatabaseTransaction)
    (q : String) (params : List Scalar) (rows : List (List Scalar)) (k b : Nat)
    (ht : t.status.isTerminal = true) :
    t.execute d q params = (.error .transactionClosed, t) ∧
    t.fetch_all d q params = (.error .transactionClosed, t) ∧
    t.stream_data d q params k = (.error .transactionClosed, t) ∧
    t.bulk_change d q rows b = (.error .transactionClosed, t) ∧
    t.commit d = (.error .transactionClosed, t) ∧
    t.rollback = (.error .transactionClosed, t) := by
  refine ⟨?_, ?_, ?_, ?_, ?_, ?_⟩ <;>
    simp [DatabaseTransaction.execute, DatabaseTransaction.fetch_all,
      DatabaseTransaction.stream_data, DatabaseTransaction.bulk_change,
      DatabaseTransaction.commit, DatabaseTransaction.rollback, ht]

/-- Witness for C3: on a committed transaction, execute and rollback fail
with TransactionClosed and leave the transaction unchanged. -/
theorem terminal_ops_fail_no_side_effect_witness :
    txCommitted.status.isTerminal = true ∧
    txCommitted.execute driverEx ("UPDATE") [] =
      (.error .transactionClosed, txCommitted) ∧
    txCommitted.rollback = (.error .transactionClosed, txCommitted) :=
  ⟨rfl,
   (terminal_ops_fail_no_side_effect driverEx txCommitted ("UPDATE") [] [] 1 1
     rfl).1,
   (terminal_ops_fail_no_side_effect driverEx txCommitted ("UPDATE") [] [] 1 1
     rfl).2.2.2.2.2⟩

/-- C4: the bulk-write result is an explicit tagged value: when every row
succeeds it is the counted total of affected rows if the driver can report
counts for batched writes, and the explicit Unavailable signal otherwise; a
driver that cannot report counts never produces a counted value at all (in
particular never a 0 standing for unknown). -/
theorem bulk_change_tagged_result (d : Driver) (t : DatabaseTransaction)
    (q : String) (rows : List (List Scalar)) (b : Nat)
    (ht : t.status = .active) (hb : 0 < b) :
    ((∀ r ∈ rows, d.execOk q r = true) →
      (t.bulk_change d q rows b).1 =
        .ok (if d.canReportCounts then .counted (rowsCount d q rows)
             else .unavailable)) ∧
    (d.canReportCounts = false →
      ∀ n, (t.bulk_change d q rows b).1 ≠ .ok (.counted n)) := by
  have hterm : t.status.isTerminal = false := by rw [ht]; rfl
  have hk0 : b ≠ 0 := Nat.pos_iff_ne_zero.mp hb
  have hflat := join_chunksOf b hk0 rows
  constructor
  · intro hall
    have hbatches : ∀ c ∈ chunksOf b rows, batchOk d q c = true := by
      intro c hc
      simp only [batchOk, List.all_eq_true, decide_eq_true_eq]
      intro r hr
      refine hall r ?_
      rw [← hflat]
      exact List.mem_flatten.mpr ⟨c, hc, hr⟩
    have happ := applyBatches_all_ok d q (chunksOf b rows) t.conn.pending 0
      hbatches
    simp only [DatabaseTransaction.bulk_change, hterm, Bool.false_eq_true,
      if_false]
    rw [happ, hflat]
    simp
  · intro hnc n
    simp only [DatabaseTransaction.bulk_change, hterm, Bool.false_eq_true,
      if_false]
    cases happ : applyBatches d q (chunksOf b rows) t.conn.pending 0 with
    | mk res pending =>
      cases res with
      | ok total => simp [hnc]
      | error e => simp

/-- Witness for C4: a driver that cannot report counts yields the explicit
Unavailable signal on a successful two-row bulk write. -/
theorem bulk_change_tagged_result_witness :
    txActive.status = .active ∧ 0 < 1 ∧
    (txActive.bulk_change driverNoCounts ("INSERT") [[1], [2]] 1).1 =
      .ok .unavailable := by
  refine ⟨rfl, by decide, ?_⟩
  have h := (bulk_change_tagged_result driverNoCounts txActive ("INSERT")
    [[1], [2]] 1 rfl (by decide)).1 (by intro r _; rfl)
  rw [h]
  simp [driverNoCounts]

/-- C5: bulk write partitions the rows into batches of size at most b whose
in-order concatenation is the input row list; when the first failing batch
has index K, the call fails with QueryError, the rows of batches 0..K-1
remain applied to the connection pending state, the transaction stays
Active, and only a subsequent rollback discards them. -/
theorem bulk_change_order_partial_effect (d : Driver) (t : DatabaseTransaction)
    (q : String) (rows : List (List Scalar)) (b K : Nat)
    (ht : t.status = .active) (hb : 0 < b)
    (hK : K < (chunksOf b rows).length)
    (hpre : ∀ j, j < K → batchOk d q ((chunksOf b rows).getD j []) = true)
    (hfail : batchOk d q ((chunksOf b rows).getD K []) = false) :
    (chunksOf b rows).flatten = rows ∧
    (∀ c ∈ chunksOf b rows, c.length ≤ b) ∧
    (t.bulk_change d q rows b).1 = .error .queryError ∧
    (t.bulk_change d q rows b).2.conn.pending =
      t.conn.pending ++ ((chunksOf b rows).take K).flatten ∧
    (t.bulk_change d q rows b).2.status = .active ∧
    ((t.bulk_change d q rows b).2.rollback).2.conn.pending = [] := by
  have hterm : t.status.isTerminal = false := by rw [ht]; rfl
  have hk0 : b ≠ 0 := Nat.pos_iff_ne_zero.mp hb
  have happ := applyBatches_fail d q (chunksOf b rows) K t.conn.pending 0 hK
    hpre hfail
  have hred : t.bulk_change d q rows b =
      (.error .queryError,
       ⟨t.status, ⟨t.conn.pending ++ ((chunksOf b rows).take K).flatten⟩⟩) := by
    simp only [DatabaseTransaction.bulk_change, hterm, Bool.false_eq_true,
      if_false]
    rw [happ]
  refine ⟨join_chunksOf b hk0 rows,
    fun c hc => (chunksOf_mem_size b hk0 rows c hc).1, ?_, ?_, ?_, ?_⟩
  · rw [hred]
  · rw [hred]
  · rw [hred]
    exact ht
  · rw [hred]
    simp only [DatabaseTransaction.rollback]
    rw [show DatabaseTransaction.status ⟨t.status, _⟩ = t.status from rfl]
    simp [TxStatus.isTerminal, ht]

/-- Witness for C5: with batch size 2 over four rows and a driver failing on
the third row, the call fails with QueryError and the first batch's two rows
remain applied to the pending state. -/
theorem bulk_change_order_partial_effect_witness :
    (txActive.bulk_change driverFailsRow3 ("INSERT") [[1], [2], [3], [4]] 2).1 =
      .error .queryError ∧
    (txActive.bulk_change driverFailsRow3 ("INSERT")
      [[1], [2], [3], [4]] 2).2.conn.pending = [[1], [2]] := by
  have h := bulk_change_order_partial_effect driverFailsRow3 txActive ("INSERT")
    [[1], [2], [3], [4]] 2 1 rfl (by decide)
    (by simp [chunksOf])
    (by
      intro j hj
      have hj0 : j = 0 := by omega
      subst hj0
      simp [chunksOf, batchOk, driverFailsRow3])
    (by simp [chunksOf, batchOk, driverFailsRow3])
  refine ⟨h.2.2.1, ?_⟩
  rw [h.2.2.2.1]
  simp [chunksOf, txActive]

/-- Reduction: a successful lookup makes get_session_database return the
registered instance and leave the registry unchanged. -/
theorem get_session_database_of_lookup (r : SessionRegistry) (s : String)
    (t : TxInstance) (h : lookupSession s r.entries = some t) :
    get_session_database r s = (t, r) := by
  unfold get_session_database
  rw [h]

/-- Reduction: a failed lookup makes get_session_database create, register
and return a fresh instance leasing a fresh handle. -/
theorem get_session_database_of_none (r : SessionRegistry) (s : String)
    (h : lookupSession s r.entries = none) :
    get_session_database r s =
      (⟨r.nextTx, r.nextHandle⟩,
       ⟨(s, ⟨r.nextTx, r.nextHandle⟩) :: r.entries, r.nextTx + 1,
        r.nextHandle + 1⟩) := by
  unfold get_session_database
  rw [h]

/-- C1: looking the same session id up twice returns the same transaction
instance and leaves the registry unchanged, while two distinct session ids
receive distinct transaction instances leasing distinct connection handles
(on any well-formed registry). -/
theorem get_session_database_spec (r : SessionRegistry) (s1 s2 : String)
    (hwf : RegistryWF r) (hne : s1 ≠ s2) :
    (get_session_database (get_session_database r s1).2 s1).1 =
      (get_session_database r s1).1 ∧
    (get_session_database (get_session_database r s1).2 s1).2 =
      (get_session_database r s1).2 ∧
    (get_session_database r s1).1.handleId ≠
      (get_session_database (get_session_database r s1).2 s2).1.handleId ∧
    (get_session_database r s1).1 ≠
      (get_session_database (get_session_database r s1).2 s2).1 := by
  have h1 := get_session_database_lookup r s1
  have hwf1 := get_session_database_wf r s1 hwf
  have hsame := get_session_database_of_lookup (get_session_database r s1).2 s1
    (get_session_database r s1).1 h1
  have hhand : (get_session_database r s1).1.handleId ≠
      (get_session_database (get_session_database r s1).2 s2).1.handleId := by
    cases hc : lookupSession s2 (get_session_database r s1).2.entries with
    | some t2 =>
      have hd := registry_distinct_handles (get_session_database r s1).2 s1 s2
        (get_session_database r s1).1 t2 hwf1 hne h1 hc
      rw [get_session_database_of_lookup (get_session_database r s1).2 s2 t2 hc]
      exact hd
    | none =>
      rw [get_session_database_of_none (get_session_database r s1).2 s2 hc]
      have hmem := lookupSession_mem s1 (get_session_database r s1).2.entries
        (get_session_database r s1).1 h1
      have hlt := hwf1.2.2 _ hmem
      exact Nat.ne_of_lt hlt
  refine ⟨?_, ?_, hhand, ?_⟩
  · rw [hsame]
  · rw [hsame]
  · intro heq
    exact hhand (congrArg TxInstance.handleId heq)

/-- Witness for C1: on the empty registry, the ids s1 and s2 receive
transactions with distinct handles, and a repeated lookup of s1 returns the
transaction created by the first call. -/
theorem get_session_database_spec_witness :
    RegistryWF emptyRegistry ∧ ("s1" : String) ≠ ("s2") ∧
    (get_session_database (get_session_database emptyRegistry ("s1")).2
      ("s1")).1 = (get_session_database emptyRegistry ("s1")).1 ∧
    (get_session_database emptyRegistry ("s1")).1.handleId ≠
      (get_session_database (get_session_database emptyRegistry ("s1")).2
        ("s2")).1.handleId := by
  have hwf : RegistryWF emptyRegistry := by
    refine ⟨?_, ?_, ?_⟩ <;> simp [emptyRegistry]
  have hne : ("s1" : String) ≠ ("s2") := by decide
  have h := get_session_database_spec emptyRegistry ("s1") ("s2") hwf hne
  exact ⟨hwf, hne, h.1, h.2.2.1⟩

/-- Counterexample to C6 as stated: from a freshly constructed pool with
min_connections = 1 (one idle handle, none leased), a single acquire leaves
a reachable state with no shutdown in progress in which the number of IDLE
handles (0) is below min_connections (1); the claimed idle-count lower bound
is violated by every acquire of the last idle handle. -/
theorem pool_idle_invariant_counterexample :
    initPool (fun _ => true) cfgSmall = .ok poolSmall ∧
    (applyOps poolSmall [PoolOp.acquireOp]).shuttingDown = false ∧
    (applyOps poolSmall [PoolOp.acquireOp]).idle.length <
      (applyOps poolSmall [PoolOp.acquireOp]).config.min_connections := by
  refine ⟨rfl, rfl, by decide⟩

/-- C6 amended: at every state reachable from pool construction by any
sequence of acquire/release operations, leased + idle handles never exceed
max_connections, the LIVE handle count (leased + idle) stays at least
min_connections unless a shutdown is in progress, and the idle and leased
sets are duplicate-free and disjoint, so a handle is leased to at most one
transaction at a time. -/
theorem pool_invariants (reachable : Nat → Bool) (cfg : DatabaseConfig)
    (p0 : ConnectionPool) (ops : List PoolOp)
    (hinit : initPool reachable cfg = .ok p0) :
    (applyOps p0 ops).leased.length + (applyOps p0 ops).idle.length ≤
      (applyOps p0 ops).config.max_connections ∧
    ((applyOps p0 ops).shuttingDown = false →
      (applyOps p0 ops).config.min_connections ≤
        (applyOps p0 ops).leased.length + (applyOps p0 ops).idle.length) ∧
    ((applyOps p0 ops).idle ++ (applyOps p0 ops).leased).Nodup := by
  have hinv := applyOps_inv ops p0 (initPool_inv reachable cfg p0 hinit)
  exact ⟨hinv.1, hinv.2.1, hinv.2.2.1⟩

/-- Witness for the amended C6: after one acquire on the small pool the live
count still respects both bounds and the handle sets are duplicate-free. -/
theorem pool_invariants_witness :
    initPool (fun _ => true) cfgSmall = .ok poolSmall ∧
    (applyOps poolSmall [PoolOp.acquireOp]).leased.length +
        (applyOps poolSmall [PoolOp.acquireOp]).idle.length ≤
      (applyOps poolSmall [PoolOp.acquireOp]).config.max_connections :=
  ⟨rfl,
   (pool_invariants (fun _ => true) cfgSmall poolSmall [PoolOp.acquireOp]
     rfl).1⟩

/-- C7: on a valid config, pool construction is all-or-nothing: when the
engine is reachable for every one of the min_connections eager handles, it
succeeds with exactly min_connections idle handles and zero leased handles;
when the engine is unreachable for even one of them, it fails with
PoolInitError and returns no pool at all. -/
theorem initPool_all_or_nothing (reachable : Nat → Bool) (cfg : DatabaseConfig)
    (hv : validConfig cfg = true) :
    ((∀ i, i < cfg.min_connections → reachable i = true) →
      initPool reachable cfg =
        .ok ⟨cfg, List.range' 0 cfg.min_connections, [], cfg.min_connections,
          false⟩ ∧
      (List.range' 0 cfg.min_connections).length = cfg.min_connections) ∧
    ((∃ i, i < cfg.min_connections ∧ reachable i = false) →
      initPool reachable cfg = .error .poolInitError) := by
  constructor
  · intro hall
    have hopen := openHandles_ok reachable cfg.min_connections 0
      (by intro i hi; simpa using hall i hi)
    refine ⟨?_, by simp [List.length_range']⟩
    simp [initPool, hv, hopen]
  · intro hex
    obtain ⟨i, hi, hf⟩ := hex
    have hopen := openHandles_fail reachable cfg.min_connections 0
      ⟨i, hi, by simpa using hf⟩
    simp [initPool, hv, hopen]

/-- Witness for C7: constructing a pool from the spec example config (min 2)
with every handle reachable yields the two idle handles 0 and 1 and no
leased handle. -/
theorem initPool_all_or_nothing_witness :
    validConfig cfgEx = true ∧
    initPool (fun _ => true) cfgEx = .ok ⟨cfgEx, [0, 1], [], 2, false⟩ := by
  refine ⟨by decide, ?_⟩
  have h := (initPool_all_or_nothing (fun _ => true) cfgEx (by decide)).1
    (by intro i hi; rfl)
  rw [h.1]
  rfl

/-- C8: every config accepted at pool construction satisfies
max_connections >= min_connections >= 1 and idle_timeout >= 0; the pool
stores that config and no sequence of pool operations ever changes it
(immutability); and the source's declared field defaults (10, 1, 30)
satisfy the constraints. -/
theorem config_validated_and_immutable (reachable : Nat → Bool)
    (cfg : DatabaseConfig) (p : ConnectionPool)
    (hok : initPool reachable cfg = .ok p) :
    1 ≤ cfg.min_connections ∧ cfg.min_connections ≤ cfg.max_connections ∧
    0 ≤ cfg.idle_timeout ∧ p.config = cfg ∧
    (∀ ops, (applyOps p ops).config = cfg) ∧
    (∀ d u, validConfig (defaultDatabaseConfig d u) = true) := by
  have hv : validConfig cfg = true := by
    by_contra hniv
    simp only [Bool.not_eq_true] at hniv
    simp [initPool, hniv] at hok
  obtain ⟨h1, h2, h3⟩ := validConfig_spec cfg hv
  have hpc : p.config = cfg := by
    unfold initPool at hok
    rw [if_pos hv] at hok
    cases hoh : openHandles reachable 0 cfg.min_connections with
    | ok hs =>
      rw [hoh] at hok
      injection hok with hok
      rw [← hok]
    | error e =>
      rw [hoh] at hok
      exact Except.noConfusion hok
  refine ⟨h1, h2, h3, hpc, ?_, ?_⟩
  · intro ops
    rw [applyOps_config ops p, hpc]
  · intro d u
    rfl

/-- Witness for C8: the small example pool construction accepts cfgSmall,
whose constraints hold, and one acquire leaves the stored config intact. -/
theorem config_validated_and_immutable_witness :
    initPool (fun _ => true) cfgSmall = .ok poolSmall ∧
    1 ≤ cfgSmall.min_connections ∧
    (applyOps poolSmall [PoolOp.acquireOp]).config = cfgSmall :=
  ⟨rfl,
   (config_validated_and_immutable (fun _ => true) cfgSmall poolSmall rfl).1,
   (config_validated_and_immutable (fun _ => true) cfgSmall poolSmall
     rfl).2.2.2.2.1 [PoolOp.acquireOp]⟩
